import Mathlib

/-!
Verification of the Study-Planner response-to-roadmap pipeline.

The Python sources (frontend/front.py, backend/gemini_client.py,
backend/database.py) are shallowly embedded over `List Char`, which models a
Python `str`.  Python's regex-based scanning functions are embedded as
fuel-indexed recursive scanners that reproduce the left-to-right,
advance-on-failure semantics of `re.findall` for the concrete patterns used by
the code; stateful methods (`GeminiClient.chat`) are embedded as pure state
transformers, with the external generation and search collaborators passed in
as explicit outcomes, following the spec's treatment of them as opaque
boundary functions.
-/

set_option maxRecDepth 10000

namespace StudyPlanner

/-- A Python string, modelled as a list of characters. -/
abbrev Str := List Char

/-- Model of Python's whitespace class (`str.strip`, regex `\s`): the six ASCII
whitespace characters plus the information separators, NEL and NBSP. -/
def pyIsSpace (c : Char) : Bool :=
  c == ' ' || c == '\t' || c == '\n' || c == '\r' || c == Char.ofNat 11 ||
  c == Char.ofNat 12 || c == Char.ofNat 28 || c == Char.ofNat 29 ||
  c == Char.ofNat 30 || c == Char.ofNat 31 || c == Char.ofNat 133 ||
  c == Char.ofNat 160

/-- Model of the regex word class `\w`: ASCII letters, digits and underscore. -/
def pyIsWord (c : Char) : Bool :=
  c.isAlpha || c.isDigit || c == '_'

/-- `str.lower`, character by character. -/
def toLowerStr (s : Str) : Str := s.map Char.toLower

/-- `s.startswith(p)`. -/
def hasPref (s p : Str) : Bool := p.isPrefixOf s

/-- `s.endswith(p)`. -/
def hasSuff (s p : Str) : Bool := p.isSuffixOf s

/-- Case-insensitive startswith (the pattern is given lowercase). -/
def hasPrefCI (s p : Str) : Bool := hasPref (toLowerStr s) p

/-- `p in s`: substring containment. -/
def containsStr : Str → Str → Bool
  | [], p => p.isEmpty
  | c :: t, p => hasPref (c :: t) p || containsStr t p

/-- `s.find(p)` restricted to successful searches: index of the first
occurrence of `p` in `s`, if any. -/
def findSub : Str → Str → Option Nat
  | [], p => if p.isEmpty then some 0 else none
  | c :: t, p => if hasPref (c :: t) p then some 0 else (findSub t p).map (· + 1)

/-- `s.lstrip()`. -/
def pyStripL (s : Str) : Str := s.dropWhile pyIsSpace

/-- `s.rstrip()`. -/
def pyStripR (s : Str) : Str := (s.reverse.dropWhile pyIsSpace).reverse

/-- `s.strip()`. -/
def pyStrip (s : Str) : Str := pyStripR (pyStripL s)

/-- `s.split('\n')`. -/
def splitNl : Str → List Str
  | [] => [[]]
  | c :: t =>
    if c == '\n' then [] :: splitNl t
    else
      match splitNl t with
      | [] => [[c]]
      | l :: ls => (c :: l) :: ls

/-- `'\n'.join(parts)`. -/
def joinNl (parts : List Str) : Str := List.intercalate ['\n'] parts

/-- The three-backtick fence marker. -/
def fence3 : Str := "```".toList

/-- The three-tilde fence marker. -/
def tilde3 : Str := "~~~".toList

/-- The lowercase mermaid language tag. -/
def mermaidTag : Str := "mermaid".toList

/-!
`extract_mermaid_diagrams` (frontend/front.py, lines 165-199).

The three `re.findall` calls are embedded as scanners.  For the concrete
patterns involved, the regex engine's behaviour is deterministic and equal to:
try a match at the current position; on success emit the (greedy/lazy resolved)
group and resume after the match, on failure advance one character.  The lazy
group `(.*?)` bounded by `\s*` and a closing fence resolves to "text up to the
first closing fence, stripped", which the Python code re-strips anyway.
-/

/-- One attempt of `` ```\s*mermaid\s*(.*?)\s*``` `` (DOTALL, IGNORECASE) at
the current position: on success returns the stripped group together with the
remaining text after the closing fence. -/
def matchMermaidAt (cs : Str) : Option (Str × Str) :=
  if hasPref cs fence3 then
    let r1 := pyStripL (cs.drop 3)
    if hasPrefCI r1 mermaidTag then
      let r2 := r1.drop 7
      match findSub r2 fence3 with
      | some j => some (pyStrip (r2.take j), r2.drop (j + 3))
      | none => none
    else none
  else none

/-- `re.findall` loop for the mermaid-fence pattern, fuel-indexed (the fuel is
instantiated with the text length, which bounds the number of scan steps). -/
def findallMermaidF : Nat → Str → List Str
  | 0, _ => []
  | _ + 1, [] => []
  | f + 1, c :: t =>
    match matchMermaidAt (c :: t) with
    | some (g, rest) => g :: findallMermaidF f rest
    | none => findallMermaidF f t

/-- All groups found by `re.findall(r'```\s*mermaid\s*(.*?)\s*```', text,
re.DOTALL | re.IGNORECASE)`, each already stripped. -/
def findallMermaid (t : Str) : List Str := findallMermaidF t.length t

/-- One attempt of `` ```(?:\w+)?\s*(.*?)\s*``` `` (DOTALL) at the current
position.  The greedy optional `(?:\w+)?` consumes the maximal word run (the
language tag) after the opening fence. -/
def matchFencedAt (cs : Str) : Option (Str × Str) :=
  if hasPref cs fence3 then
    let r2 := (cs.drop 3).dropWhile pyIsWord
    match findSub r2 fence3 with
    | some j => some (pyStrip (r2.take j), r2.drop (j + 3))
    | none => none
  else none

/-- `re.findall` loop for the generic backtick-fence pattern. -/
def findallFencedF : Nat → Str → List Str
  | 0, _ => []
  | _ + 1, [] => []
  | f + 1, c :: t =>
    match matchFencedAt (c :: t) with
    | some (g, rest) => g :: findallFencedF f rest
    | none => findallFencedF f t

/-- All (stripped) groups of `re.findall(r'```(?:\w+)?\s*(.*?)\s*```', text,
re.DOTALL)`. -/
def findallFenced (t : Str) : List Str := findallFencedF t.length t

/-- One attempt of `~~~\s*(.*?)\s*~~~` (DOTALL) at the current position. -/
def matchTildeAt (cs : Str) : Option (Str × Str) :=
  if hasPref cs tilde3 then
    let r2 := cs.drop 3
    match findSub r2 tilde3 with
    | some j => some (pyStrip (r2.take j), r2.drop (j + 3))
    | none => none
  else none

/-- `re.findall` loop for the tilde-fence pattern. -/
def findallTildeF : Nat → Str → List Str
  | 0, _ => []
  | _ + 1, [] => []
  | f + 1, c :: t =>
    match matchTildeAt (c :: t) with
    | some (g, rest) => g :: findallTildeF f rest
    | none => findallTildeF f t

/-- All (stripped) groups of `re.findall(r'~~~\s*(.*?)\s*~~~', text,
re.DOTALL)`. -/
def findallTilde (t : Str) : List Str := findallTildeF t.length t

/-- The heuristic filter of extraction strategy 2: the stripped block "looks
like" a mermaid diagram. -/
def looksLikeMermaid (c : Str) : Bool :=
  let low := toLowerStr c
  containsStr low "flowchart".toList || containsStr low "graph".toList ||
  containsStr low "classdef".toList || containsStr c "-->".toList ||
  (c.contains '[' && c.contains ']')

/-- The zero-width lookahead `(?=\n{2,}|$)` (no MULTILINE): it holds before two
or more newlines, at the end of the text, and just before a final newline. -/
def inlineStopHere (s : Str) : Bool :=
  s.isEmpty || s == ['\n'] || hasPref s ['\n', '\n']

/-- Index of the first position (in `s`) where `inlineStopHere` holds; the
lazy `[\s\S]*?` of strategy 3 extends exactly this far. -/
def findInlineStop : Str → Nat
  | [] => 0
  | c :: t => if inlineStopHere (c :: t) then 0 else 1 + findInlineStop t

/-- Length of the diagram keyword matched by `(?:flowchart|graph)`
(IGNORECASE) at the head of `s`, if any; `flowchart` is tried first. -/
def kwLenAt (s : Str) : Option Nat :=
  if hasPrefCI s "flowchart".toList then some 9
  else if hasPrefCI s "graph".toList then some 5
  else none

/-- The body of a strategy-3 match starting exactly at `s` (after `^` or after
a consumed newline): the keyword followed lazily by text up to the first
position where the lookahead holds.  Returns the match body and the remaining
text (the lookahead consumes nothing). -/
def matchInlineBody (s : Str) : Option (Str × Str) :=
  match kwLenAt s with
  | some k =>
    let e := k + findInlineStop (s.drop k)
    some (s.take e, s.drop e)
  | none => none

/-- `re.findall` loop for
`(?:(?:^|\n)(?:flowchart|graph)[\s\S]*?)(?=\n{2,}|$)` (IGNORECASE).  The
`Bool` records whether the scan position is the start of the text (where the
`^` alternative applies); a match via the `\n` alternative includes the
consumed newline in the returned match, as `re.findall` does. -/
def scanInlineF : Nat → Str → Bool → List Str
  | 0, _, _ => []
  | f + 1, cs, true =>
    match matchInlineBody cs with
    | some (m, rest) => m :: scanInlineF f rest false
    | none => scanInlineF f cs false
  | _ + 1, [], false => []
  | f + 1, c :: t, false =>
    if c == '\n' then
      match matchInlineBody t with
      | some (m, rest) => (c :: m) :: scanInlineF f rest false
      | none => scanInlineF f t false
    else scanInlineF f t false

/-- All raw matches of the strategy-3 inline pattern. -/
def scanInline (t : Str) : List Str := scanInlineF (2 * t.length + 1) t true

/-- Strategy 1 of `extract_mermaid_diagrams`: explicit fenced mermaid blocks,
keeping each stripped group `m.strip()` with `if m and m.strip()`. -/
def strategy1 (t : Str) : List Str :=
  (findallMermaid t).filter (fun g => !g.isEmpty)

/-- Strategy 2: generic fenced code blocks (backtick results then tilde
results, as the code concatenates the two findall lists) that look like
mermaid. -/
def strategy2 (t : Str) : List Str :=
  (findallFenced t ++ findallTilde t).filter
    (fun c => !c.isEmpty && looksLikeMermaid c)

/-- Strategy 3: unfenced blocks starting with flowchart/graph, stripped and
kept when non-empty. -/
def strategy3 (t : Str) : List Str :=
  ((scanInline t).map pyStrip).filter (fun b => !b.isEmpty)

/-- `extract_mermaid_diagrams` (front.py lines 165-199): empty input yields no
diagrams; otherwise the three strategies run in cascade, each later strategy
only when every earlier one produced nothing. -/
def extract_mermaid_diagrams (t : Str) : List Str :=
  if t.isEmpty then []
  else if !(strategy1 t).isEmpty then strategy1 t
  else if !(strategy2 t).isEmpty then strategy2 t
  else strategy3 t

/-!
Spec-side notion of "fenced code block tagged mermaid", written from the
claim's words ("case-insensitive tag, tolerant of extra whitespace between
the fence and the tag"; inner content is what stands between the tag and the
closing fence).  Scanning is left to right; a fence start that does not open a
mermaid-tagged block is skipped by one character and a closed block's content
is collected trimmed, the scan resuming after its closing fence.
-/

/-- Spec-side reading of "a fenced code block tagged mermaid" opening at the
current position: the fence marker, optional whitespace, the case-insensitive
tag, and an inner content that extends to the closing fence.  On success
returns the trimmed inner content and the text after the closing fence. -/
def specMatchAt (cs : Str) : Option (Str × Str) :=
  if hasPref cs fence3 then
    let tagStart := pyStripL (cs.drop 3)
    if hasPrefCI tagStart mermaidTag then
      let inner := tagStart.drop 7
      match findSub inner fence3 with
      | some j => some (pyStrip (inner.take j), inner.drop (j + 3))
      | none => none
    else none
  else none

/-- Spec-side scan for mermaid-tagged fenced blocks (fuel-indexed): collect
each block's trimmed content in document order, skipping by one character past
positions that do not open a mermaid-tagged block. -/
def specMermaidBlocksF : Nat → Str → List Str
  | 0, _ => []
  | _ + 1, [] => []
  | f + 1, c :: t =>
    match specMatchAt (c :: t) with
    | some (g, rest) => g :: specMermaidBlocksF f rest
    | none => specMermaidBlocksF f t

/-- The trimmed inner contents of the mermaid-tagged fenced blocks of a text,
in document order (spec-side definition for the extraction claims). -/
def specMermaidBlocks (t : Str) : List Str := specMermaidBlocksF t.length t

/-- Spec-side "text contains no fenced block": no decomposition around a pair
of backtick fences and none around a pair of tilde fences. -/
def noFencedBlock (t : Str) : Prop :=
  (¬ ∃ a b c, t = a ++ fence3 ++ b ++ fence3 ++ c) ∧
  (¬ ∃ a b c, t = a ++ tilde3 ++ b ++ tilde3 ++ c)

/-- Spec-side "text contains no block starting with a diagram keyword": no
flowchart/graph keyword (case-insensitive) at the start of the text or right
after a newline. -/
def noKeywordBlock (t : Str) : Prop :=
  kwLenAt t = none ∧ ¬ ∃ a r, t = a ++ '\n' :: r ∧ kwLenAt r ≠ none

/-!
`validate_and_clean_mermaid` (front.py lines 201-245), split into the stages
of the Python function.
-/

/-- `re.sub(r'^```\w*|```$', '', s)`: without MULTILINE, `^` anchors at the
start of the string (eating the fence and the word-run language tag after it)
and `$` at the end or just before a final newline. -/
def fenceSub (s : Str) : Str :=
  let s1 := if hasPref s fence3 then (s.drop 3).dropWhile pyIsWord else s
  if hasSuff s1 fence3 then s1.take (s1.length - 3)
  else if hasSuff s1 (fence3 ++ ['\n']) then s1.take (s1.length - 4) ++ ['\n']
  else s1

/-- Normalisation of curly quotes, curly apostrophes and non-breaking spaces
(the five `str.replace` calls, each replacing a single character). -/
def replaceSpecials (s : Str) : Str :=
  s.map fun c =>
    if c == Char.ofNat 0x201C || c == Char.ofNat 0x201D then '"'
    else if c == Char.ofNat 0x2018 || c == Char.ofNat 0x2019 then Char.ofNat 39
    else if c == Char.ofNat 160 then ' ' else c

/-- `ln.lstrip('> ')`: drop leading `>` and space characters. -/
def lstripGt (s : Str) : Str := s.dropWhile (fun c => c == '>' || c == ' ')

/-- The `'%% mermaid'` stray-marker test of the line filter. -/
def mermaidMarker : Str := "%% mermaid".toList

/-- Lines 203-216 of front.py: strip fences and whitespace, normalise special
characters, clean each line, drop empty and stray-marker lines, rejoin and
strip. -/
def cleanStage (d : Str) : Str :=
  let c3 := replaceSpecials (pyStrip (fenceSub d))
  let lines := (splitNl c3).map (fun ln => pyStripR (lstripGt ln))
  let lines2 := lines.filter (fun ln => !ln.isEmpty && !hasPref ln mermaidMarker)
  pyStrip (joinNl lines2)

/-- The recognised diagram-type keywords test (on an already lowercased
string). -/
def startsWithDiagramKw (low : Str) : Bool :=
  hasPref low "flowchart".toList || hasPref low "graph".toList ||
  hasPref low "sequence".toList || hasPref low "gantt".toList

/-- Lines 218-229 of front.py: ensure the text begins with a recognised
diagram keyword, truncating to the first `flowchart`/`graph` occurrence or
prepending a default `flowchart TD` header. -/
def keywordStage (c4 : Str) : Str :=
  let low := toLowerStr c4
  if startsWithDiagramKw low then c4
  else
    match findSub low "flowchart".toList with
    | some i => c4.drop i
    | none =>
      match findSub low "graph".toList with
      | some i => c4.drop i
      | none => "flowchart TD\n".toList ++ c4

/-- The block of five default class definitions injected by the sanitizer. -/
def colorDefs : Str :=
  ("classDef foundation fill:#4d94ff,color:#000,stroke:#333,stroke-width:2px\n" ++
   "classDef core fill:#33cc33,color:#000,stroke:#333,stroke-width:2px\n" ++
   "classDef practice fill:#ff9900,color:#000,stroke:#333,stroke-width:2px\n" ++
   "classDef project fill:#9933ff,color:#fff,stroke:#333,stroke-width:2px\n" ++
   "classDef review fill:#ff3333,color:#fff,stroke:#333,stroke-width:2px").toList

/-- `parts.insert(1, x)` on a list of split lines. -/
def insertSecond (l : List Str) (x : Str) : List Str :=
  match l with
  | [] => [x]
  | h :: t => h :: x :: t

/-- Lines 231-243 of front.py: inject the default class definitions after the
first line when `':::'` is used but the text had no `classdef`.  Note that the
Python code tests `'classdef' not in low` against the lowercased text from
BEFORE the keyword stage (`low` is not recomputed), while `':::' in cleaned`
is tested on the text after it; `low` is therefore a separate argument. -/
def classdefStage (c5 : Str) (low : Str) : Str :=
  if !containsStr low "classdef".toList && containsStr c5 ":::".toList then
    joinNl (insertSecond (splitNl c5) colorDefs)
  else c5

/-- `validate_and_clean_mermaid` (front.py lines 201-245): `None` models the
Python `None` (the INVALID signal), returned exactly for falsy (empty)
input. -/
def validate_and_clean_mermaid (d : Str) : Option Str :=
  if d.isEmpty then none
  else
    let c4 := cleanStage d
    some (classdefStage (keywordStage c4) (toLowerStr c4))

/-!
`GeminiClient.parse_mermaid_diagram` (backend/gemini_client.py lines 301-320):
`re.findall(r'([A-Z]\w*)\[([^\]]+)\]', mermaid_code)` and one item per match.
-/

/-- One attempt of `([A-Z]\w*)\[([^\]]+)\]` at the current position: an
ASCII-uppercase-led word, an opening bracket, a non-empty bracket-free label
and the closing bracket. -/
def matchNodeAt (cs : Str) : Option ((Str × Str) × Str) :=
  match cs with
  | [] => none
  | c :: t =>
    if c.isUpper then
      let idTail := t.takeWhile pyIsWord
      match t.dropWhile pyIsWord with
      | '[' :: u =>
        let lab := u.takeWhile (fun x => !(x == ']'))
        if lab.isEmpty then none
        else
          match u.dropWhile (fun x => !(x == ']')) with
          | ']' :: v => some ((c :: idTail, lab), v)
          | _ => none
      | _ => none
    else none

/-- `re.findall` loop for the node pattern (fuel-indexed). -/
def findallNodesF : Nat → Str → List (Str × Str)
  | 0, _ => []
  | _ + 1, [] => []
  | f + 1, c :: t =>
    match matchNodeAt (c :: t) with
    | some (p, rest) => p :: findallNodesF f rest
    | none => findallNodesF f t

/-- All `(identifier, label)` matches of the node pattern, in document
order. -/
def findallNodes (t : Str) : List (Str × Str) := findallNodesF t.length t

/-- A parsed roadmap item (the dicts built by `parse_mermaid_diagram`). -/
structure RoadmapItem where
  id : Str
  title : Str
  description : Str
deriving DecidableEq, Repr

/-- `GeminiClient.parse_mermaid_diagram`: one item per node match, with the
label stripped and the fixed description template. -/
def parse_mermaid_diagram (code : Str) : List RoadmapItem :=
  (findallNodes code).map fun p =>
    { id := p.1, title := pyStrip p.2,
      description := "Complete: ".toList ++ pyStrip p.2 }

/-!
`SupabaseDB.get_roadmap_progress` (backend/database.py lines 241-256).  The
stored rows returned by `get_roadmap_items` are modelled as a given list; the
arithmetic of the percentage is modelled in `ℚ` (Python computes it in
floating point; the claims are about the formula `completed/total*100`).
-/

/-- A stored roadmap item row, as far as progress aggregation reads it. -/
structure DbRoadmapItem where
  id : Str
  title : Str
  completed : Bool
deriving DecidableEq, Repr

/-- The progress dictionary returned by `get_roadmap_progress`. -/
structure ProgressStats where
  total_items : Nat
  completed_items : Nat
  progress_percentage : ℚ
  items : List DbRoadmapItem
deriving DecidableEq, Repr

/-- `SupabaseDB.get_roadmap_progress` over the fetched item rows. -/
def get_roadmap_progress (items : List DbRoadmapItem) : ProgressStats :=
  let total := items.length
  let completed := (items.filter (fun i => i.completed)).length
  { total_items := total
    completed_items := completed
    progress_percentage :=
      if total > 0 then (completed : ℚ) / (total : ℚ) * 100 else 0
    items := items }

/-!
`GeminiClient._detect_search_query` and the prompt-enhancement and history
bookkeeping of `GeminiClient.chat` (backend/gemini_client.py lines 190-292).
The web-search collaborator is an explicit function argument and the
generation collaborator an explicit `Except` outcome, following the spec's
boundary contracts.
-/

/-- A web search result as formatted into the prompt. -/
structure SearchResult where
  title : Str
  href : Str
  body : Str

/-- The user settings dict (sidebar settings). -/
structure UserSettings where
  duration : Str
  current_level : Str
  study_field : Str

/-- A conversation history entry. -/
structure ChatMsg where
  role : Str
  content : Str
deriving DecidableEq, Repr

/-- `GeminiClient._detect_search_query` (lines 190-201): prefix test on the
lowercased, stripped message; the query is sliced from the ORIGINAL message
after the seven-character prefix and stripped; an empty query yields `None`. -/
def detect_search_query (msg : Str) : Option Str :=
  let low := pyStrip (toLowerStr msg)
  if hasPref low "search:".toList then
    let q := pyStrip (msg.drop 7)
    if q.isEmpty then none else some q
  else if hasPref low "/search".toList then
    let q := pyStrip (msg.drop 7)
    if q.isEmpty then none else some q
  else none

/-- `str(n)` for the 1-based result index. -/
def natToStr (n : Nat) : Str := (Nat.repr n).toList

/-- The `--- Web Search Results ---` block spliced into the prompt. -/
def searchContextStr (rs : List SearchResult) : Str :=
  "\n\n--- Web Search Results ---\n".toList ++
  (rs.enum.flatMap fun p =>
    "\n[".toList ++ natToStr (p.1 + 1) ++ "] ".toList ++ p.2.title ++
    "\nURL: ".toList ++ p.2.href ++ "\nSummary: ".toList ++ p.2.body ++ ['\n'])

/-- The citation instruction appended after the search results. -/
def citeInstr : Str :=
  ("\n\nPlease provide a helpful response based on these search results, " ++
   "citing sources with [1], [2], etc.").toList

/-- The note used instead of a results section when the search returned
nothing. -/
def noResultsNote : Str :=
  ("\n\n(Note: Web search did not return results. " ++
   "Please respond based on your knowledge.)").toList

/-- The `User Settings:` context block (lines 245-257), empty when no setting
is set. -/
def settingsContext (s : Option UserSettings) : Str :=
  match s with
  | none => []
  | some u =>
    let parts :=
      (if !u.duration.isEmpty then ["Study Duration: ".toList ++ u.duration] else []) ++
      (if !u.current_level.isEmpty then ["Current Level: ".toList ++ u.current_level] else []) ++
      (if !u.study_field.isEmpty then ["Study Field: ".toList ++ u.study_field] else [])
    if parts.isEmpty then []
    else "\n\nUser Settings:\n".toList ++ joinNl parts ++ ['\n']

/-- The enhanced user message built by `chat` (lines 223-257): search results
or no-results note spliced in when a search directive was detected, then the
settings context prepended. -/
def enhancedMessage (msg : Str) (searchFn : Str → List SearchResult)
    (settings : Option UserSettings) : Str :=
  let base :=
    match detect_search_query msg with
    | some q =>
      let rs := searchFn q
      if rs.isEmpty then msg ++ noResultsNote
      else msg ++ "\n\n".toList ++ searchContextStr rs ++ citeInstr
    | none => msg
  settingsContext settings ++ base

/-- Python truthiness of an optional string (`None` and the empty string are
falsy). -/
def optStrTruthy : Option Str → Bool
  | none => false
  | some s => !s.isEmpty

/-- The in-memory state of a `GeminiClient` that `chat` reads and mutates:
the `use_database` flag (the constructor forces it to false whenever
`self.db` failed to initialise, so one flag models `use_database and
self.db`), the current conversation id and the in-memory
`conversation_history`. -/
structure ClientState where
  use_database : Bool
  current_conversation_id : Option Str
  conversation_history : List ChatMsg
deriving DecidableEq, Repr

/-- `GeminiClient.set_conversation_id` (lines 203-209): store the id and
reload the in-memory history from the database. -/
def set_conversation_id (st : ClientState) (cid : Str)
    (dbHistory : Str → List ChatMsg) : ClientState :=
  let st1 := { st with current_conversation_id := some cid }
  if st1.use_database then
    { st1 with conversation_history := dbHistory cid }
  else st1

/-- The conversation-initialization block at the top of `chat` (lines
213-221): with the database active and a truthy session id, a missing
conversation id is resolved through `get_or_create_conversation` (whose
outcome is the argument `dbGetOrCreate`) and, when one is obtained,
`set_conversation_id` RELOADS the in-memory history from the database;
otherwise an empty in-memory history is reloaded for the existing id.  In
both reload cases the pre-turn in-memory history is overwritten, not
appended to. -/
def chatInit (st : ClientState) (session_id : Option Str)
    (dbGetOrCreate : Option Str) (dbHistory : Str → List ChatMsg) :
    ClientState :=
  if st.use_database && optStrTruthy session_id then
    if !optStrTruthy st.current_conversation_id then
      if optStrTruthy dbGetOrCreate then
        set_conversation_id st (dbGetOrCreate.getD []) dbHistory
      else st
    else if st.conversation_history.isEmpty then
      { st with conversation_history :=
          dbHistory (st.current_conversation_id.getD []) }
    else st
  else st

/-- The outcome of one `chat` turn: the returned response, the client state
after the turn, and the messages this turn wrote to the database. -/
structure ChatOutcome where
  response : Str
  state : ClientState
  saved : List ChatMsg
deriving Repr

/-- `GeminiClient.chat` (lines 211-292) as a state transformer: first the
conversation-initialization block (which may replace the in-memory history
with the persisted one), then the enhanced user message is appended to the
resulting history (and saved when the database is active with a truthy
conversation id); on successful generation the stripped reply is appended
and saved; on failure the error string is returned as the response and
nothing further is appended or saved.  The database collaborator outcomes
(`dbGetOrCreate`, `dbHistory`) and the generation outcome are explicit
arguments, following the spec's boundary contracts. -/
def chat (st : ClientState) (session_id : Option Str) (msg : Str)
    (searchFn : Str → List SearchResult) (settings : Option UserSettings)
    (dbGetOrCreate : Option Str) (dbHistory : Str → List ChatMsg)
    (gen : Except Str Str) : ChatOutcome :=
  let st1 := chatInit st session_id dbGetOrCreate dbHistory
  let enh := enhancedMessage msg searchFn settings
  let h1 := st1.conversation_history ++ [ChatMsg.mk "user".toList enh]
  let dbActive := st1.use_database && optStrTruthy st1.current_conversation_id
  let savedUser : List ChatMsg :=
    if dbActive then [ChatMsg.mk "user".toList enh] else []
  match gen with
  | .ok r =>
    let resp := pyStrip r
    { response := resp
      state := { st1 with conversation_history :=
        h1 ++ [ChatMsg.mk "assistant".toList resp] }
      saved := savedUser ++
        (if dbActive then [ChatMsg.mk "assistant".toList resp] else []) }
  | .error e =>
    { response := "Error generating response: ".toList ++ e
      state := { st1 with conversation_history := h1 }
      saved := savedUser }

end StudyPlanner

namespace StudyPlanner

-- Sanity checks for the basic string model.
example : pyStrip "  ab c \n".toList = "ab c".toList := by decide
example : splitNl "a\n\nb".toList = ["a".toList, [], "b".toList] := by decide
example : joinNl ["a".toList, [], "b".toList] = "a\n\nb".toList := by decide
example : findSub "abcabc".toList "ca".toList = some 2 := by decide
example : containsStr "hello".toList "ell".toList = true := by decide
example : toLowerStr "MerMaid".toList = "mermaid".toList := by decide

-- Sanity checks for the extractor, mirroring the behaviour of the Python
-- regexes on the same inputs.
example : findallMermaid "```mermaid\nX\n```".toList = ["X".toList] := by decide
example : findallMermaid "```MERMAID   \n  X  ```".toList = ["X".toList] := by decide
example : findallMermaid "````mermaid x```".toList = ["x".toList] := by decide
example : findallMermaid "``` ```mermaid\nX\n```".toList = ["X".toList] := by decide
example : findallMermaid "```mermaid A``` mid ```mermaid B```".toList
    = ["A".toList, "B".toList] := by decide
example : findallMermaid "```mermaid\n```\n```python\nA[1]\n```".toList = [[]] := by decide
example : findallFenced "```mermaid\n```\n```python\nA[1]\n```".toList
    = [[], "A[1]".toList] := by decide
example : findallFenced "``` abc ```".toList = ["abc".toList] := by decide
example : findallTilde "~~~\nA-->B\n~~~".toList = ["A-->B".toList] := by decide
example : scanInline "flowchart A\n\nflowchart B".toList
    = ["flowchart A".toList, "\nflowchart B".toList] := by decide
example : scanInline "flowchart A\n".toList = ["flowchart A".toList] := by decide
example : scanInline "x\ngraph TD\nA-->B\n\nrest".toList
    = ["\ngraph TD\nA-->B".toList] := by decide
example : extract_mermaid_diagrams "```mermaid\n```\n```python\nA[1]\n```".toList
    = ["A[1]".toList] := by decide
example : extract_mermaid_diagrams "no diagrams here".toList = [] := by decide
example : extract_mermaid_diagrams "flowchart TD\nA-->B".toList
    = ["flowchart TD\nA-->B".toList] := by decide

-- Sanity checks for the sanitizer, mirroring Python behaviour.
example : validate_and_clean_mermaid [] = none := by decide
example : validate_and_clean_mermaid " ".toList = some "flowchart TD\n".toList := by decide
example : validate_and_clean_mermaid "flowchart TD\n".toList
    = some "flowchart TD".toList := by decide
example : validate_and_clean_mermaid "```mermaid\n> graph TD\n  A --> B  \n```".toList
    = some "graph TD\nA --> B".toList := by decide
example : validate_and_clean_mermaid "see classDef docs\nflowchart TD\nA:::foo".toList
    = some "flowchart TD\nA:::foo".toList := by decide
example : validate_and_clean_mermaid "A:::x".toList
    = some ("flowchart TD\n".toList ++ colorDefs ++ "\nA:::x".toList) := by decide

-- Sanity checks for the parser and the aggregator.
example : parse_mermaid_diagram "aB[x]".toList
    = [{ id := "B".toList, title := "x".toList, description := "Complete: x".toList }] := by
  decide
example : parse_mermaid_diagram "A[]B[x]".toList
    = [{ id := "B".toList, title := "x".toList, description := "Complete: x".toList }] := by
  decide
example : (get_roadmap_progress []).progress_percentage = 0 := by decide
example : detect_search_query "SEARCH:  stuff ".toList = some "stuff".toList := by decide
example : detect_search_query "search:".toList = none := by decide
example : detect_search_query "/search  bar".toList = some "bar".toList := by decide

end StudyPlanner

namespace StudyPlanner

/-! Basic lemmas about the string model. -/

theorem hasPref_iff {s p : Str} : hasPref s p = true ↔ p <+: s := by
  simp [hasPref]

theorem hasPref_decomp {s p : Str} (h : hasPref s p = true) :
    s = p ++ s.drop p.length := by
  rcases hasPref_iff.mp h with ⟨t, rfl⟩
  simp

theorem findSub_decomp {s p : Str} {j : Nat} (h : findSub s p = some j) :
    s = s.take j ++ p ++ s.drop (j + p.length) := by
  induction s generalizing j with
  | nil =>
    by_cases hp : p.isEmpty <;> simp [findSub, hp] at h
    rcases h with rfl
    simp [List.isEmpty_iff.mp hp]
  | cons c t ih =>
    by_cases hp : hasPref (c :: t) p
    · simp [findSub, hp] at h
      rcases h with rfl
      simpa using hasPref_decomp hp
    · simp [findSub, hp] at h
      rcases h with ⟨j', hj', rfl⟩
      have := ih hj'
      calc c :: t = c :: (t.take j' ++ p ++ t.drop (j' + p.length)) := by rw [← this]
        _ = (c :: t).take (j' + 1) ++ p ++ (c :: t).drop (j' + 1 + p.length) := by
              simp [List.take_succ_cons, List.drop_succ_cons,
                Nat.add_right_comm j' 1 p.length]

theorem findSub_pref {s p : Str} {j : Nat} (h : findSub s p = some j) :
    hasPref (s.drop j) p = true := by
  induction s generalizing j with
  | nil =>
    simp only [findSub] at h
    split at h
    · next hp =>
      injection h with h
      subst h
      simp [hasPref, List.isEmpty_iff.mp hp]
    · exact absurd h (by simp)
  | cons c t ih =>
    by_cases hp : hasPref (c :: t) p = true
    · simp [findSub, hp] at h
      subst h
      simpa using hp
    · simp [findSub, hp] at h
      rcases h with ⟨j', hj', rfl⟩
      simpa using ih hj'

theorem containsStr_iff {s p : Str} : containsStr s p = true ↔ p <:+: s := by
  induction s with
  | nil =>
    constructor
    · intro h
      have hp : p = [] := by simpa [containsStr, List.isEmpty_iff] using h
      simp [hp]
    · intro h
      have hp : p = [] := List.eq_nil_of_infix_nil h
      simp [containsStr, hp, List.isEmpty_iff]
  | cons c t ih =>
    constructor
    · intro h
      have h' : p <+: c :: t ∨ containsStr t p = true := by
        simpa [containsStr, hasPref_iff] using h
      rcases h' with h' | h'
      · exact h'.isInfix
      · exact List.infix_cons (ih.mp h')
    · intro h
      rcases h with ⟨a, b, hab⟩
      cases a with
      | nil =>
        have hpre : p <+: c :: t := ⟨b, by simpa using hab⟩
        simp [containsStr, hasPref_iff, hpre]
      | cons a0 a' =>
        have h2 : a' ++ p ++ b = t := by
          simpa using congrArg List.tail hab
        have hc : containsStr t p = true := ih.mpr ⟨a', b, h2⟩
        simp [containsStr, hc]

theorem containsStr_of_infix {s p q : Str} (hq : containsStr q p = true)
    (h : q <:+: s) : containsStr s p = true :=
  containsStr_iff.mpr ((containsStr_iff.mp hq).trans h)

theorem infix_map_toLowerStr {s q : Str} (h : q <:+: s) :
    toLowerStr q <:+: toLowerStr s := by
  rcases h with ⟨a, b, rfl⟩
  exact ⟨toLowerStr a, toLowerStr b, by simp [toLowerStr]⟩

/-! Lemmas about `splitNl` and `joinNl`. -/

theorem splitNl_ne_nil (s : Str) : splitNl s ≠ [] := by
  cases s with
  | nil => simp [splitNl]
  | cons c t =>
    by_cases hc : c == '\n'
    · simp [splitNl, hc]
    · simp only [splitNl, hc]
      cases splitNl t <;> simp

theorem splitNl_head (s : Str) :
    ∃ r, splitNl s = (s.takeWhile (fun c => !(c == '\n'))) :: r := by
  induction s with
  | nil => exact ⟨[], rfl⟩
  | cons c t ih =>
    by_cases hc : c == '\n'
    · refine ⟨splitNl t, ?_⟩
      simp [splitNl, hc, List.takeWhile, beq_iff_eq.mp hc]
    · rcases ih with ⟨r, hr⟩
      refine ⟨r, ?_⟩
      simp [splitNl, hc, hr, List.takeWhile]

theorem joinNl_singleton (a : Str) : joinNl [a] = a := by
  simp [joinNl, List.intercalate, List.intersperse_singleton]

theorem joinNl_cons_cons (a b : Str) (L : List Str) :
    joinNl (a :: b :: L) = a ++ '\n' :: joinNl (b :: L) := by
  simp [joinNl, List.intercalate, List.intersperse_cons_cons]

theorem splitNl_cons_of_nl (t : Str) : splitNl ('\n' :: t) = [] :: splitNl t := by
  simp [splitNl]

theorem splitNl_cons_of_ne {c : Char} (t : Str) (hc : ¬(c == '\n') = true)
    {l0 : Str} {ls : List Str} (hh : splitNl t = l0 :: ls) :
    splitNl (c :: t) = (c :: l0) :: ls := by
  simp [splitNl, hc, hh]

theorem mem_splitNl_no_nl {s l : Str} (h : l ∈ splitNl s) : '\n' ∉ l := by
  induction s generalizing l with
  | nil =>
    simp [splitNl] at h
    simp [h]
  | cons c t ih =>
    rcases hh : splitNl t with _ | ⟨l0, ls⟩
    · exact absurd hh (splitNl_ne_nil t)
    by_cases hc : c == '\n'
    · rw [beq_iff_eq.mp hc, splitNl_cons_of_nl] at h
      rcases List.mem_cons.mp h with rfl | h2
      · simp
      · exact ih h2
    · rw [splitNl_cons_of_ne t hc hh] at h
      rcases List.mem_cons.mp h with rfl | h2
      · intro hm
        rcases List.mem_cons.mp hm with heq | hm2
        · rw [← heq] at hc
          simp at hc
        · exact ih (hh ▸ List.mem_cons_self l0 ls) hm2
      · exact ih (hh ▸ List.mem_cons_of_mem l0 h2)

theorem splitNl_append_nl (a b : Str) :
    splitNl (a ++ '\n' :: b) = splitNl a ++ splitNl b := by
  induction a with
  | nil => simp [splitNl]
  | cons c t ih =>
    rcases hh : splitNl t with _ | ⟨l0, ls⟩
    · exact absurd hh (splitNl_ne_nil t)
    rcases hh2 : splitNl (t ++ '\n' :: b) with _ | ⟨m0, ms⟩
    · exact absurd hh2 (splitNl_ne_nil _)
    have hsum : m0 :: ms = (l0 :: ls) ++ splitNl b := by rw [← hh2, ih, hh]
    by_cases hc : c == '\n'
    · rw [beq_iff_eq.mp hc]
      rw [List.cons_append, splitNl_cons_of_nl, splitNl_cons_of_nl, ih, hh]
      simp
    · rw [List.cons_append, splitNl_cons_of_ne _ hc hh2,
        splitNl_cons_of_ne _ hc hh]
      have hm0 : m0 = l0 := by simpa using congrArg (fun l => l.headI) hsum
      have hms : ms = ls ++ splitNl b := by
        simpa using congrArg (fun l => l.tail) hsum
      rw [hm0, hms]
      simp

theorem joinNl_splitNl (s : Str) : joinNl (splitNl s) = s := by
  induction s with
  | nil => simp [splitNl, joinNl, List.intercalate]
  | cons c t ih =>
    rcases hh : splitNl t with _ | ⟨l0, ls⟩
    · exact absurd hh (splitNl_ne_nil t)
    by_cases hc : c == '\n'
    · rw [beq_iff_eq.mp hc, splitNl_cons_of_nl, hh, joinNl_cons_cons]
      rw [← hh, ih]
      simp
    · rw [splitNl_cons_of_ne t hc hh]
      cases ls with
      | nil =>
        rw [joinNl_singleton]
        have h2 : joinNl [l0] = t := by rw [← hh, ih]
        rw [joinNl_singleton] at h2
        rw [h2]
      | cons x xs =>
        rw [joinNl_cons_cons]
        have h2 : joinNl (l0 :: x :: xs) = t := by rw [← hh, ih]
        rw [joinNl_cons_cons] at h2
        simp [h2]

theorem splitNl_of_no_nl {l : Str} (h : '\n' ∉ l) : splitNl l = [l] := by
  induction l with
  | nil => simp [splitNl]
  | cons c t ih =>
    have hc : ¬(c == '\n') := by
      simp only [beq_iff_eq]
      rintro rfl
      exact h (by simp)
    have ht : '\n' ∉ t := fun hm => h (by simp [hm])
    simp [splitNl, hc, ih ht]

theorem splitNl_joinNl {L : List Str} (hne : L ≠ [])
    (h : ∀ l ∈ L, '\n' ∉ l) : splitNl (joinNl L) = L := by
  induction L with
  | nil => exact absurd rfl hne
  | cons l ls ih =>
    cases ls with
    | nil =>
      rw [joinNl_singleton]
      exact splitNl_of_no_nl (h l (by simp))
    | cons x xs =>
      rw [joinNl_cons_cons, splitNl_append_nl,
        splitNl_of_no_nl (h l (by simp)),
        ih (by simp) (fun m hm => h m (by simp [hm]))]
      simp

theorem infix_of_mem_splitNl {s l : Str} (h : l ∈ splitNl s) : l <:+: s := by
  induction s generalizing l with
  | nil =>
    simp [splitNl] at h
    simp [h]
  | cons c t ih =>
    rcases hh : splitNl t with _ | ⟨l0, ls⟩
    · exact absurd hh (splitNl_ne_nil t)
    by_cases hc : c == '\n'
    · rw [beq_iff_eq.mp hc, splitNl_cons_of_nl] at h
      rcases List.mem_cons.mp h with rfl | h2
      · exact List.nil_infix
      · exact List.infix_cons (ih h2)
    · rw [splitNl_cons_of_ne t hc hh] at h
      rcases List.mem_cons.mp h with rfl | h2
      · have hl0 : l0 <+: t := by
          rcases splitNl_head t with ⟨r, hr⟩
          rw [hh] at hr
          have : l0 = t.takeWhile (fun x => !(x == '\n')) := by
            simpa using congrArg (fun l => l.headI) hr
          rw [this]
          exact List.takeWhile_prefix _
        rcases hl0 with ⟨r, hr⟩
        have hpre : (c :: l0) <+: c :: t := ⟨r, by rw [List.cons_append, hr]⟩
        exact hpre.isInfix
      · exact List.infix_cons (ih (hh ▸ List.mem_cons_of_mem l0 h2))

/-! The spec-side scan and the source-side `re.findall` embedding agree. -/

theorem specMatchAt_eq (cs : Str) : specMatchAt cs = matchMermaidAt cs := rfl

theorem specMermaidBlocksF_eq (f : Nat) (s : Str) :
    specMermaidBlocksF f s = findallMermaidF f s := by
  induction f generalizing s with
  | zero => rfl
  | succ f ih =>
    cases s with
    | nil => rfl
    | cons c t =>
      simp only [specMermaidBlocksF, findallMermaidF, specMatchAt_eq]
      cases hm : matchMermaidAt (c :: t) with
      | some gr => cases gr with | mk g rest => simp [ih]
      | none => simp [ih]

theorem specMermaidBlocks_eq (t : Str) :
    specMermaidBlocks t = findallMermaid t :=
  specMermaidBlocksF_eq t.length t

/-! Whenever a fence scanner emits anything, the text decomposes around a
pair of fences; contrapositively, a text with no fenced block yields
nothing. -/

theorem matchMermaidAt_decomp {cs : Str} {gr : Str × Str}
    (h : matchMermaidAt cs = some gr) :
    ∃ b c, cs = fence3 ++ b ++ fence3 ++ c := by
  by_cases h1 : hasPref cs fence3
  · by_cases h2 : hasPrefCI (pyStripL (cs.drop 3)) mermaidTag
    · cases hfs : findSub ((pyStripL (cs.drop 3)).drop 7) fence3 with
      | some j =>
        have hd1 : cs = fence3 ++ cs.drop 3 := by
          have := hasPref_decomp h1
          simpa [fence3] using this
        obtain ⟨w, hw⟩ : ∃ w, cs.drop 3 = w ++ pyStripL (cs.drop 3) :=
          ⟨(cs.drop 3).takeWhile pyIsSpace, by simp [pyStripL]⟩
        obtain ⟨p, hp⟩ : ∃ p,
            pyStripL (cs.drop 3) = p ++ (pyStripL (cs.drop 3)).drop 7 :=
          ⟨(pyStripL (cs.drop 3)).take 7, by simp⟩
        obtain ⟨A, B, hAB⟩ : ∃ A B, (pyStripL (cs.drop 3)).drop 7 =
            A ++ fence3 ++ B := by
          refine ⟨((pyStripL (cs.drop 3)).drop 7).take j,
            ((pyStripL (cs.drop 3)).drop 7).drop (j + 3), ?_⟩
          have := findSub_decomp hfs
          simpa [fence3] using this
        refine ⟨w ++ p ++ A, B, ?_⟩
        rw [hd1, hw, hp, hAB]
        simp [List.append_assoc]
      | none => simp [matchMermaidAt, h1, h2, hfs] at h
    · simp [matchMermaidAt, h1, h2] at h
  · simp [matchMermaidAt, h1] at h

theorem findallMermaidF_pair {f : Nat} {s : Str}
    (h : findallMermaidF f s ≠ []) :
    ∃ a b c, s = a ++ fence3 ++ b ++ fence3 ++ c := by
  induction f generalizing s with
  | zero => simp [findallMermaidF] at h
  | succ f ih =>
    cases s with
    | nil => simp [findallMermaidF] at h
    | cons c0 t =>
      cases hm : matchMermaidAt (c0 :: t) with
      | some gr =>
        obtain ⟨b, c, hd⟩ := matchMermaidAt_decomp hm
        exact ⟨[], b, c, by simpa using hd⟩
      | none =>
        have hrec : findallMermaidF f t ≠ [] := by
          simpa [findallMermaidF, hm] using h
        obtain ⟨a, b, c, hd⟩ := ih hrec
        exact ⟨c0 :: a, b, c, by simp [hd]⟩

theorem matchFencedAt_decomp {cs : Str} {gr : Str × Str}
    (h : matchFencedAt cs = some gr) :
    ∃ b c, cs = fence3 ++ b ++ fence3 ++ c := by
  by_cases h1 : hasPref cs fence3
  · cases hfs : findSub ((cs.drop 3).dropWhile pyIsWord) fence3 with
    | some j =>
      have hd1 : cs = fence3 ++ cs.drop 3 := by
        have := hasPref_decomp h1
        simpa [fence3] using this
      obtain ⟨w, hw⟩ : ∃ w, cs.drop 3 = w ++ (cs.drop 3).dropWhile pyIsWord :=
        ⟨(cs.drop 3).takeWhile pyIsWord, by simp⟩
      obtain ⟨A, B, hAB⟩ : ∃ A B, (cs.drop 3).dropWhile pyIsWord =
          A ++ fence3 ++ B := by
        refine ⟨((cs.drop 3).dropWhile pyIsWord).take j,
          ((cs.drop 3).dropWhile pyIsWord).drop (j + 3), ?_⟩
        have := findSub_decomp hfs
        simpa [fence3] using this
      refine ⟨w ++ A, B, ?_⟩
      rw [hd1, hw, hAB]
      simp [List.append_assoc]
    | none => simp [matchFencedAt, h1, hfs] at h
  · simp [matchFencedAt, h1] at h

theorem findallFencedF_pair {f : Nat} {s : Str}
    (h : findallFencedF f s ≠ []) :
    ∃ a b c, s = a ++ fence3 ++ b ++ fence3 ++ c := by
  induction f generalizing s with
  | zero => simp [findallFencedF] at h
  | succ f ih =>
    cases s with
    | nil => simp [findallFencedF] at h
    | cons c0 t =>
      cases hm : matchFencedAt (c0 :: t) with
      | some gr =>
        obtain ⟨b, c, hd⟩ := matchFencedAt_decomp hm
        exact ⟨[], b, c, by simpa using hd⟩
      | none =>
        have hrec : findallFencedF f t ≠ [] := by
          simpa [findallFencedF, hm] using h
        obtain ⟨a, b, c, hd⟩ := ih hrec
        exact ⟨c0 :: a, b, c, by simp [hd]⟩

theorem matchTildeAt_decomp {cs : Str} {gr : Str × Str}
    (h : matchTildeAt cs = some gr) :
    ∃ b c, cs = tilde3 ++ b ++ tilde3 ++ c := by
  by_cases h1 : hasPref cs tilde3
  · cases hfs : findSub (cs.drop 3) tilde3 with
    | some j =>
      have hd1 : cs = tilde3 ++ cs.drop 3 := by
        have := hasPref_decomp h1
        simpa [tilde3] using this
      obtain ⟨A, B, hAB⟩ : ∃ A B, cs.drop 3 = A ++ tilde3 ++ B := by
        refine ⟨(cs.drop 3).take j, (cs.drop 3).drop (j + 3), ?_⟩
        have := findSub_decomp hfs
        simpa [tilde3] using this
      refine ⟨A, B, ?_⟩
      rw [hd1, hAB]
      simp [List.append_assoc]
    | none => simp [matchTildeAt, h1, hfs] at h
  · simp [matchTildeAt, h1] at h

theorem findallTildeF_pair {f : Nat} {s : Str}
    (h : findallTildeF f s ≠ []) :
    ∃ a b c, s = a ++ tilde3 ++ b ++ tilde3 ++ c := by
  induction f generalizing s with
  | zero => simp [findallTildeF] at h
  | succ f ih =>
    cases s with
    | nil => simp [findallTildeF] at h
    | cons c0 t =>
      cases hm : matchTildeAt (c0 :: t) with
      | some gr =>
        obtain ⟨b, c, hd⟩ := matchTildeAt_decomp hm
        exact ⟨[], b, c, by simpa using hd⟩
      | none =>
        have hrec : findallTildeF f t ≠ [] := by
          simpa [findallTildeF, hm] using h
        obtain ⟨a, b, c, hd⟩ := ih hrec
        exact ⟨c0 :: a, b, c, by simp [hd]⟩

theorem matchInlineBody_kw {s : Str} {gr : Str × Str}
    (h : matchInlineBody s = some gr) : kwLenAt s ≠ none := by
  cases hk : kwLenAt s with
  | some k => simp [hk]
  | none => simp [matchInlineBody, hk] at h

theorem scanInlineF_kw {f : Nat} {s : Str} {b : Bool}
    (h : scanInlineF f s b ≠ []) :
    (b = true ∧ kwLenAt s ≠ none) ∨ ∃ a r, s = a ++ '\n' :: r ∧ kwLenAt r ≠ none := by
  induction f generalizing s b with
  | zero => simp [scanInlineF] at h
  | succ f ih =>
    cases b with
    | true =>
      cases hm : matchInlineBody s with
      | some gr => exact Or.inl ⟨rfl, matchInlineBody_kw hm⟩
      | none =>
        have hrec : scanInlineF f s false ≠ [] := by
          simpa [scanInlineF, hm] using h
        rcases ih hrec with ⟨hb, _⟩ | hr
        · exact absurd hb (by simp)
        · exact Or.inr hr
    | false =>
      cases s with
      | nil => simp [scanInlineF] at h
      | cons c0 t =>
        by_cases hc : c0 == '\n'
        · cases hm : matchInlineBody t with
          | some gr =>
            exact Or.inr ⟨[], t, by simp [beq_iff_eq.mp hc], matchInlineBody_kw hm⟩
          | none =>
            have hrec : scanInlineF f t false ≠ [] := by
              simpa [scanInlineF, hc, hm] using h
            rcases ih hrec with ⟨hb, _⟩ | ⟨a, r, ht, hk⟩
            · exact absurd hb (by simp)
            · exact Or.inr ⟨c0 :: a, r, by simp [ht], hk⟩
        · have hrec : scanInlineF f t false ≠ [] := by
            simpa [scanInlineF, hc] using h
          rcases ih hrec with ⟨hb, _⟩ | ⟨a, r, ht, hk⟩
          · exact absurd hb (by simp)
          · exact Or.inr ⟨c0 :: a, r, by simp [ht], hk⟩

/-- A text without the fence markers as substrings has no fenced block. -/
theorem noFencedBlock_of {t : Str} (h1 : containsStr t fence3 = false)
    (h2 : containsStr t tilde3 = false) : noFencedBlock t := by
  constructor
  · rintro ⟨a, b, c, rfl⟩
    have : containsStr (a ++ fence3 ++ b ++ fence3 ++ c) fence3 = true :=
      containsStr_iff.mpr ⟨a, b ++ fence3 ++ c, by simp⟩
    rw [this] at h1
    exact absurd h1 (by simp)
  · rintro ⟨a, b, c, rfl⟩
    have : containsStr (a ++ tilde3 ++ b ++ tilde3 ++ c) tilde3 = true :=
      containsStr_iff.mpr ⟨a, b ++ tilde3 ++ c, by simp⟩
    rw [this] at h2
    exact absurd h2 (by simp)

/-- A text whose head carries no diagram keyword and whose lowercase form
contains neither `"\nflowchart"` nor `"\ngraph"` has no keyword block. -/
theorem noKeywordBlock_of {t : Str} (h0 : kwLenAt t = none)
    (h1 : containsStr (toLowerStr t) ('\n' :: "flowchart".toList) = false)
    (h2 : containsStr (toLowerStr t) ('\n' :: "graph".toList) = false) :
    noKeywordBlock t := by
  refine ⟨h0, ?_⟩
  rintro ⟨a, r, rfl, hk⟩
  have hkw : hasPrefCI r "flowchart".toList = true ∨ hasPrefCI r "graph".toList = true := by
    by_cases hf : hasPrefCI r "flowchart".toList = true
    · exact Or.inl hf
    · by_cases hg : hasPrefCI r "graph".toList = true
      · exact Or.inr hg
      · refine absurd ?_ hk
        unfold kwLenAt
        rw [if_neg hf, if_neg hg]
  have hlow : toLowerStr (a ++ '\n' :: r) = toLowerStr a ++ '\n' :: toLowerStr r := by
    simp [toLowerStr]
  rcases hkw with hkw | hkw
  · rcases hasPref_iff.mp hkw with ⟨rest, hrest⟩
    have : containsStr (toLowerStr (a ++ '\n' :: r)) ('\n' :: "flowchart".toList) = true := by
      refine containsStr_iff.mpr ⟨toLowerStr a, rest, ?_⟩
      rw [hlow, ← hrest]
      simp [hasPrefCI] at hkw
      simp
    rw [this] at h1
    exact absurd h1 (by simp)
  · rcases hasPref_iff.mp hkw with ⟨rest, hrest⟩
    have : containsStr (toLowerStr (a ++ '\n' :: r)) ('\n' :: "graph".toList) = true := by
      refine containsStr_iff.mpr ⟨toLowerStr a, rest, ?_⟩
      rw [hlow, ← hrest]
      simp
    rw [this] at h2
    exact absurd h2 (by simp)

/-- Claim C1 (amended): for every text containing a mermaid-tagged fenced
block with non-whitespace inner content, the extractor returns exactly the
trimmed non-empty inner contents of those blocks, once each, in document
order (blocks whose content trims to nothing are omitted); and a text with no
fenced block and no block starting with a diagram keyword extracts to the
empty sequence. -/
theorem extract_returns_mermaid_blocks (t : Str) :
    ((specMermaidBlocks t).filter (fun g => !g.isEmpty) ≠ [] →
      extract_mermaid_diagrams t =
        (specMermaidBlocks t).filter (fun g => !g.isEmpty)) ∧
    (noFencedBlock t → noKeywordBlock t → extract_mermaid_diagrams t = []) := by
  have hspec : (specMermaidBlocks t).filter (fun g => !g.isEmpty) = strategy1 t := by
    rw [strategy1, specMermaidBlocks_eq]
  constructor
  · intro h1
    rw [hspec] at h1 ⊢
    have ht : ¬t.isEmpty = true := by
      intro he
      rw [List.isEmpty_iff.mp he] at h1
      exact h1 rfl
    have h1' : (strategy1 t).isEmpty = false := by
      simpa [List.isEmpty_iff] using h1
    simp [extract_mermaid_diagrams, ht, h1']
  · intro hf hk
    by_cases ht : t.isEmpty = true
    · simp [extract_mermaid_diagrams, ht]
    · have h1 : strategy1 t = [] := by
        by_contra h
        have hne : findallMermaid t ≠ [] := by
          intro he
          exact h (by simp [strategy1, he])
        exact hf.1 (findallMermaidF_pair hne)
      have h2 : strategy2 t = [] := by
        by_contra h
        have hne : findallFenced t ≠ [] ∨ findallTilde t ≠ [] := by
          by_contra hno
          push_neg at hno
          exact h (by simp [strategy2, hno.1, hno.2])
        rcases hne with hne | hne
        · exact hf.1 (findallFencedF_pair hne)
        · exact hf.2 (findallTildeF_pair hne)
      have h3 : strategy3 t = [] := by
        by_contra h
        have hne : scanInline t ≠ [] := by
          intro he
          exact h (by simp [strategy3, he])
        rcases scanInlineF_kw hne with ⟨_, hkw⟩ | ⟨a, r, hd, hkw⟩
        · exact hkw hk.1
        · exact hk.2 ⟨a, r, hd, hkw⟩
      simp [extract_mermaid_diagrams, ht, h1, h2, h3]

/-- Witness for the amended C1: a document with one mermaid block extracts to
exactly that block's trimmed content, and a plain-text document with no fence
and no keyword block extracts to nothing. -/
theorem extract_returns_mermaid_blocks_witness :
    extract_mermaid_diagrams "intro\n```mermaid\nflowchart TD\nA[Start]\n```\nbye".toList
      = (specMermaidBlocks "intro\n```mermaid\nflowchart TD\nA[Start]\n```\nbye".toList).filter
          (fun g => !g.isEmpty) ∧
    extract_mermaid_diagrams "just a plain answer\nwith two lines".toList = [] :=
  ⟨(extract_returns_mermaid_blocks _).1 (by decide),
   (extract_returns_mermaid_blocks _).2
     (noFencedBlock_of (by decide) (by decide))
     (noKeywordBlock_of (by decide) (by decide) (by decide))⟩

/-- Counterexample to C1 as stated: this text contains a mermaid-tagged
fenced block (with whitespace-only inner content), yet the extractor does not
return that block's trimmed content exactly once: strategy 2 takes over and
returns the content of an unrelated python-tagged block instead. -/
theorem extract_returns_mermaid_blocks_cex :
    specMermaidBlocks "```mermaid\n```\n```python\nA[1]\n```".toList = [([] : Str)] ∧
    extract_mermaid_diagrams "```mermaid\n```\n```python\nA[1]\n```".toList
      = ["A[1]".toList] ∧
    extract_mermaid_diagrams "```mermaid\n```\n```python\nA[1]\n```".toList
      ≠ specMermaidBlocks "```mermaid\n```\n```python\nA[1]\n```".toList := by
  refine ⟨by decide, by decide, by decide⟩

/-- Claim C2: the three extraction strategies run in strict priority order and
the cascade stops at the first strategy that yields a candidate: when
strategy 1 yields anything the result is exactly strategy 1's candidates, and
when strategy 2 yields anything the result is strategy 1's or strategy 2's
candidates, never strategy 3's. -/
theorem extract_cascade_priority (t : Str) :
    (strategy1 t ≠ [] → extract_mermaid_diagrams t = strategy1 t) ∧
    (strategy2 t ≠ [] →
      extract_mermaid_diagrams t = strategy1 t ∨
      extract_mermaid_diagrams t = strategy2 t) := by
  constructor
  · intro h1
    have ht : ¬t.isEmpty = true := by
      intro he
      rw [List.isEmpty_iff.mp he] at h1
      exact h1 rfl
    have h1' : (strategy1 t).isEmpty = false := by
      simpa [List.isEmpty_iff] using h1
    simp [extract_mermaid_diagrams, ht, h1']
  · intro h2
    have ht : ¬t.isEmpty = true := by
      intro he
      rw [List.isEmpty_iff.mp he] at h2
      exact h2 rfl
    have h2' : (strategy2 t).isEmpty = false := by
      simpa [List.isEmpty_iff] using h2
    by_cases h1 : (strategy1 t).isEmpty = true
    · right
      simp [extract_mermaid_diagrams, ht, h1, h2']
    · left
      have h1' : (strategy1 t).isEmpty = false := by
        simpa using h1
      simp [extract_mermaid_diagrams, ht, h1']

/-- Witness for C2 at a document where both strategy 1 and strategy 2 would
match: the cascade returns strategy 1's candidates. -/
theorem extract_cascade_priority_witness :
    extract_mermaid_diagrams "```mermaid\nflowchart TD\nA[Start]\n```".toList
      = strategy1 "```mermaid\nflowchart TD\nA[Start]\n```".toList ∧
    (extract_mermaid_diagrams "```mermaid\nflowchart TD\nA[Start]\n```".toList
      = strategy1 "```mermaid\nflowchart TD\nA[Start]\n```".toList ∨
     extract_mermaid_diagrams "```mermaid\nflowchart TD\nA[Start]\n```".toList
      = strategy2 "```mermaid\nflowchart TD\nA[Start]\n```".toList) :=
  ⟨(extract_cascade_priority _).1 (by decide),
   (extract_cascade_priority _).2 (by decide)⟩

/-! Lemmas about the sanitizer's keyword handling. -/

theorem hasPref_append {a b p : Str} (h : hasPref a p = true) :
    hasPref (a ++ b) p = true :=
  hasPref_iff.mpr ((hasPref_iff.mp h).trans (List.prefix_append a b))

/-- A newline-free case-insensitive keyword at the head of `s` survives
replacing everything from the first newline on by arbitrary text. -/
theorem kwHead_transfer (kw : Str) : ∀ s r : Str, '\n' ∉ kw →
    hasPref (toLowerStr s) kw = true →
    hasPref (toLowerStr (s.takeWhile (fun c => !(c == '\n')) ++ r)) kw = true := by
  induction kw with
  | nil =>
    intro s r _ _
    simp [hasPref]
  | cons k kt ih =>
    intro s r hnl h
    cases s with
    | nil => exact absurd h (by simp [toLowerStr, hasPref, List.isPrefixOf])
    | cons c t =>
      have hh : (k == c.toLower) = true ∧ hasPref (toLowerStr t) kt = true := by
        simpa [hasPref, toLowerStr, List.isPrefixOf] using h
      have hcn : (!(c == '\n')) = true := by
        simp only [Bool.not_eq_true', beq_eq_false_iff_ne]
        rintro rfl
        apply hnl
        have hk : k = Char.toLower '\n' := beq_iff_eq.mp hh.1
        have : Char.toLower '\n' = '\n' := by decide
        rw [hk, this]
        exact List.mem_cons_self _ _
      rw [List.takeWhile_cons, if_pos hcn]
      have ih' := ih t r (fun hm => hnl (List.mem_cons_of_mem _ hm)) hh.2
      simp only [List.cons_append, toLowerStr, List.map_cons]
      simp only [toLowerStr] at ih'
      simp [hasPref, List.isPrefixOf, hh.1]
      exact (by simpa [hasPref] using ih')

theorem keywordStage_kw (c4 : Str) :
    startsWithDiagramKw (toLowerStr (keywordStage c4)) = true := by
  unfold keywordStage
  by_cases h0 : startsWithDiagramKw (toLowerStr c4) = true
  · rw [if_pos h0]
    exact h0
  · rw [if_neg h0]
    cases hf : findSub (toLowerStr c4) "flowchart".toList with
    | some i =>
      have hmap : toLowerStr (c4.drop i) = (toLowerStr c4).drop i := by
        simp [toLowerStr, List.map_drop]
      have hp := findSub_pref hf
      simp only [hf, startsWithDiagramKw, hmap, Bool.or_eq_true]
      exact Or.inl (Or.inl (Or.inl hp))
    | none =>
      cases hg : findSub (toLowerStr c4) "graph".toList with
      | some i =>
        have hmap : toLowerStr (c4.drop i) = (toLowerStr c4).drop i := by
          simp [toLowerStr, List.map_drop]
        have hp := findSub_pref hg
        simp only [hf, hg, startsWithDiagramKw, hmap, Bool.or_eq_true]
        exact Or.inl (Or.inl (Or.inr hp))
      | none =>
        have hsplit : toLowerStr ("flowchart TD\n".toList ++ c4) =
            toLowerStr "flowchart TD\n".toList ++ toLowerStr c4 := by
          simp [toLowerStr]
        have hfl : hasPref (toLowerStr ("flowchart TD\n".toList ++ c4))
            "flowchart".toList = true := by
          rw [hsplit]
          exact hasPref_append (by decide)
        simp only [hf, hg, startsWithDiagramKw, Bool.or_eq_true]
        exact Or.inl (Or.inl (Or.inl hfl))

theorem classdefStage_kw {c5 low : Str}
    (h : startsWithDiagramKw (toLowerStr c5) = true) :
    startsWithDiagramKw (toLowerStr (classdefStage c5 low)) = true := by
  unfold classdefStage
  split
  case isFalse => exact h
  case isTrue =>
    obtain ⟨r, hr⟩ := splitNl_head c5
    have main : ∀ kw : Str, '\n' ∉ kw → hasPref (toLowerStr c5) kw = true →
        hasPref (toLowerStr (joinNl (insertSecond (splitNl c5) colorDefs))) kw
          = true := by
      intro kw hnl hkw
      rw [hr]
      show hasPref (toLowerStr (joinNl
        (List.takeWhile (fun c => !(c == '\n')) c5 :: colorDefs :: r))) kw = true
      rw [joinNl_cons_cons]
      exact kwHead_transfer kw c5 ('\n' :: joinNl (colorDefs :: r)) hnl hkw
    simp only [startsWithDiagramKw, Bool.or_eq_true] at h ⊢
    rcases h with ((h | h) | h) | h
    · exact Or.inl (Or.inl (Or.inl (main _ (by decide) h)))
    · exact Or.inl (Or.inl (Or.inr (main _ (by decide) h)))
    · exact Or.inl (Or.inr (main _ (by decide) h))
    · exact Or.inr (main _ (by decide) h)

/-- Claim C3 (amended): `validate_and_clean_mermaid` signals INVALID (returns
`None`) exactly when the candidate is the EMPTY string; every other
candidate — including whitespace-only ones — yields a non-empty result that
begins, case-insensitively, with one of flowchart/graph/sequence/gantt. -/
theorem sanitize_invalid_iff_empty :
    validate_and_clean_mermaid [] = none ∧
    ∀ d : Str, d ≠ [] → ∃ y, validate_and_clean_mermaid d = some y ∧ y ≠ [] ∧
      startsWithDiagramKw (toLowerStr y) = true := by
  refine ⟨rfl, ?_⟩
  intro d hd
  refine ⟨classdefStage (keywordStage (cleanStage d)) (toLowerStr (cleanStage d)),
    ?_, ?_, classdefStage_kw (keywordStage_kw _)⟩
  · unfold validate_and_clean_mermaid
    rw [if_neg (by simpa [List.isEmpty_iff] using hd)]
  · intro hy
    have hkw := @classdefStage_kw (keywordStage (cleanStage d))
      (toLowerStr (cleanStage d)) (keywordStage_kw (cleanStage d))
    rw [hy] at hkw
    exact absurd hkw (by decide)

/-- Witness for the amended C3 on a concrete non-empty candidate. -/
theorem sanitize_invalid_iff_empty_witness :
    ∃ y, validate_and_clean_mermaid "graph TD\nA-->B".toList = some y ∧ y ≠ [] ∧
      startsWithDiagramKw (toLowerStr y) = true :=
  sanitize_invalid_iff_empty.2 "graph TD\nA-->B".toList (by decide)

/-- Counterexample to C3 as stated: a whitespace-only candidate is NOT
signalled INVALID; the sanitizer fabricates the bare default header (with a
trailing newline) instead. -/
theorem sanitize_invalid_iff_empty_cex :
    pyStrip " ".toList = [] ∧
    validate_and_clean_mermaid " ".toList = some "flowchart TD\n".toList := by
  refine ⟨by decide, by decide⟩

/-! Idempotence of the sanitizer on canonical outputs (claim C4). -/

/-- Canonical form: every cleaning step of the sanitizer leaves the text
unchanged — no fence residue, trim-stable, no special characters, every line
non-empty and stable under the per-line cleaning, a recognised keyword head,
and class-marker/classDef consistency. -/
def isCanonical (y : Str) : Bool :=
  (fenceSub y == y) && (pyStrip y == y) && (replaceSpecials y == y) &&
  (splitNl y).all (fun ln =>
    !ln.isEmpty && (lstripGt ln == ln) && (pyStripR ln == ln) &&
    !hasPref ln mermaidMarker) &&
  startsWithDiagramKw (toLowerStr y) &&
  (!containsStr y ":::".toList || containsStr (toLowerStr y) "classdef".toList)

theorem cleanStage_id {y : Str} (h1 : fenceSub y = y) (h2 : pyStrip y = y)
    (h3 : replaceSpecials y = y)
    (h4 : ∀ ln ∈ splitNl y, ln ≠ [] ∧ lstripGt ln = ln ∧ pyStripR ln = ln ∧
      hasPref ln mermaidMarker = false) :
    cleanStage y = y := by
  unfold cleanStage
  dsimp only
  rw [h1, h2, h3]
  have hm : List.map (fun ln => pyStripR (lstripGt ln)) (splitNl y) =
      List.map id (splitNl y) :=
    List.map_congr_left (fun a ha => by
      rw [(h4 a ha).2.1, (h4 a ha).2.2.1]
      rfl)
  rw [hm, List.map_id]
  have hfil : (splitNl y).filter
      (fun ln => !ln.isEmpty && !hasPref ln mermaidMarker) = splitNl y := by
    rw [List.filter_eq_self.mpr]
    intro a ha
    simp [List.isEmpty_iff, (h4 a ha).1, (h4 a ha).2.2.2]
  rw [hfil, joinNl_splitNl, h2]

/-- Claim C4 (amended): the sanitizer is idempotent on every valid candidate
whose output is in canonical form: re-sanitizing such an output returns it
unchanged.  (The unrestricted claim is false, see the counterexample: the
output can carry a trailing newline, a trailing fence, or a `:::` marker
without `classDef`, and then re-sanitizing changes it.) -/
theorem sanitize_idempotent_on_canonical :
    ∀ x y : Str, validate_and_clean_mermaid x = some y → isCanonical y = true →
      validate_and_clean_mermaid y = some y := by
  intro x y _ hcan
  simp only [isCanonical, Bool.and_eq_true, List.all_eq_true] at hcan
  obtain ⟨⟨⟨⟨⟨hf, hs⟩, hr⟩, hlines⟩, hkw⟩, hcd⟩ := hcan
  have hf' : fenceSub y = y := eq_of_beq hf
  have hs' : pyStrip y = y := eq_of_beq hs
  have hr' : replaceSpecials y = y := eq_of_beq hr
  have hy : ¬y.isEmpty = true := by
    intro he
    rw [List.isEmpty_iff.mp he] at hkw
    exact absurd hkw (by decide)
  have hclean : cleanStage y = y := by
    refine cleanStage_id hf' hs' hr' (fun ln hln => ?_)
    have := hlines ln hln
    simp only [Bool.and_eq_true, Bool.not_eq_true', List.isEmpty_eq_false] at this
    exact ⟨by simpa [List.isEmpty_iff] using this.1.1.1,
      eq_of_beq this.1.1.2, eq_of_beq this.1.2, this.2⟩
  have hkstage : keywordStage y = y := by
    unfold keywordStage
    rw [if_pos hkw]
  have hcstage : classdefStage y (toLowerStr y) = y := by
    unfold classdefStage
    rw [if_neg ?_]
    intro hcond
    rw [Bool.and_eq_true] at hcond
    rcases Bool.or_eq_true _ _ |>.mp hcd with hno | hyes
    · rw [hcond.2] at hno
      exact absurd hno (by decide)
    · rw [hyes] at hcond
      exact absurd hcond.1 (by decide)
  unfold validate_and_clean_mermaid
  rw [if_neg hy]
  dsimp only
  rw [hclean, hkstage, hcstage]

/-- Witness for the amended C4: a fully canonical diagram sanitizes to itself,
so a second application changes nothing. -/
theorem sanitize_idempotent_on_canonical_witness :
    validate_and_clean_mermaid "flowchart TD\nA[Start] --> B[End]".toList
      = some "flowchart TD\nA[Start] --> B[End]".toList :=
  sanitize_idempotent_on_canonical "flowchart TD\nA[Start] --> B[End]".toList
    "flowchart TD\nA[Start] --> B[End]".toList (by decide) (by decide)

/-- Counterexample to C4 as stated: the whitespace-only candidate is valid
(sanitize returns an output for it), but sanitize of that output differs from
the output — `sanitize(sanitize(" ")) ≠ sanitize(" ")`. -/
theorem sanitize_idempotent_cex :
    validate_and_clean_mermaid " ".toList = some "flowchart TD\n".toList ∧
    validate_and_clean_mermaid "flowchart TD\n".toList
      = some "flowchart TD".toList ∧
    "flowchart TD\n".toList ≠ "flowchart TD".toList := by
  refine ⟨by decide, by decide, by decide⟩

/-! Injection of the default class definitions (claim C5). -/

/-- Every line of the keyword stage's output is either the prepended default
header or an infix of the stage's input. -/
theorem keywordStage_lines {c4 line : Str}
    (h : line ∈ splitNl (keywordStage c4)) :
    line = "flowchart TD".toList ∨ line <:+: c4 := by
  unfold keywordStage at h
  dsimp only at h
  split at h
  · exact Or.inr (infix_of_mem_splitNl h)
  · split at h
    · exact Or.inr ((infix_of_mem_splitNl h).trans (List.drop_suffix _ c4).isInfix)
    · split at h
      · exact Or.inr ((infix_of_mem_splitNl h).trans (List.drop_suffix _ c4).isInfix)
      · have hlit : "flowchart TD\n".toList = "flowchart TD".toList ++ ['\n'] := by
          decide
        have hsplit : "flowchart TD\n".toList ++ c4 =
            "flowchart TD".toList ++ '\n' :: c4 := by
          rw [hlit, List.append_assoc]
          rfl
        rw [hsplit, splitNl_append_nl] at h
        have hhd : splitNl "flowchart TD".toList = ["flowchart TD".toList] :=
          splitNl_of_no_nl (by decide)
        rw [hhd] at h
        rcases List.mem_append.mp h with h | h
        · exact Or.inl (List.mem_singleton.mp h)
        · exact Or.inr (infix_of_mem_splitNl h)

/-- Claim C5 (amended): for every candidate whose keyword-staged body contains
a `:::` marker while the cleaned text BEFORE keyword truncation contains no
`classdef` (case-insensitively) — which is the condition the code actually
tests — the sanitizer's output consists of the header line, then exactly the
five default classDef lines, then the remaining body lines, and no other line
of the output mentions classDef. -/
theorem sanitize_injects_five_classdefs :
    ∀ d : Str, d ≠ [] →
      containsStr (keywordStage (cleanStage d)) ":::".toList = true →
      containsStr (toLowerStr (cleanStage d)) "classdef".toList = false →
      ∃ y first rest, validate_and_clean_mermaid d = some y ∧
        splitNl y = first :: (splitNl colorDefs ++ rest) ∧
        splitNl colorDefs =
          ["classDef foundation fill:#4d94ff,color:#000,stroke:#333,stroke-width:2px".toList,
           "classDef core fill:#33cc33,color:#000,stroke:#333,stroke-width:2px".toList,
           "classDef practice fill:#ff9900,color:#000,stroke:#333,stroke-width:2px".toList,
           "classDef project fill:#9933ff,color:#fff,stroke:#333,stroke-width:2px".toList,
           "classDef review fill:#ff3333,color:#fff,stroke:#333,stroke-width:2px".toList] ∧
        (splitNl y).countP
          (fun ln => containsStr (toLowerStr ln) "classdef".toList) = 5 := by
  intro d hd h3 hcd
  have hcond : (!containsStr (toLowerStr (cleanStage d)) "classdef".toList &&
      containsStr (keywordStage (cleanStage d)) ":::".toList) = true := by
    rw [hcd, h3]
    rfl
  obtain ⟨r, hr⟩ := splitNl_head (keywordStage (cleanStage d))
  have hy : validate_and_clean_mermaid d = some (joinNl
      ((keywordStage (cleanStage d)).takeWhile (fun c => !(c == '\n')) ::
        colorDefs :: r)) := by
    unfold validate_and_clean_mermaid
    rw [if_neg (by simpa [List.isEmpty_iff] using hd)]
    dsimp only
    unfold classdefStage
    rw [if_pos hcond, hr]
    rfl
  have hh0mem : (keywordStage (cleanStage d)).takeWhile (fun c => !(c == '\n'))
      ∈ splitNl (keywordStage (cleanStage d)) := by
    rw [hr]
    exact List.mem_cons_self _ _
  have hh0nl : '\n' ∉ (keywordStage (cleanStage d)).takeWhile (fun c => !(c == '\n')) :=
    mem_splitNl_no_nl hh0mem
  have hrnl : ∀ l ∈ r, '\n' ∉ l := fun l hl =>
    mem_splitNl_no_nl (by rw [hr]; exact List.mem_cons_of_mem _ hl)
  have hysplit : splitNl (joinNl
      ((keywordStage (cleanStage d)).takeWhile (fun c => !(c == '\n')) ::
        colorDefs :: r)) =
      (keywordStage (cleanStage d)).takeWhile (fun c => !(c == '\n')) ::
        (splitNl colorDefs ++ r) := by
    rw [joinNl_cons_cons, splitNl_append_nl, splitNl_of_no_nl hh0nl]
    have hinner : splitNl (joinNl (colorDefs :: r)) = splitNl colorDefs ++ r := by
      cases r with
      | nil =>
        rw [joinNl_singleton]
        simp
      | cons x xs =>
        rw [joinNl_cons_cons, splitNl_append_nl,
          splitNl_joinNl (by simp) (fun l hl => hrnl l hl)]
    rw [hinner]
    simp
  have hcount0 : ∀ l ∈ splitNl (keywordStage (cleanStage d)),
      containsStr (toLowerStr l) "classdef".toList = false := by
    intro l hl
    rcases keywordStage_lines hl with rfl | hinf
    · decide
    · by_contra hc
      rw [Bool.not_eq_false] at hc
      have := containsStr_of_infix hc (infix_map_toLowerStr hinf)
      rw [this] at hcd
      exact absurd hcd (by simp)
  refine ⟨_, _, r, hy, hysplit, by decide, ?_⟩
  rw [hysplit, List.countP_cons, List.countP_append]
  have hph0 : containsStr (toLowerStr
      ((keywordStage (cleanStage d)).takeWhile (fun c => !(c == '\n'))))
      "classdef".toList = false := hcount0 _ hh0mem
  have hpr : r.countP (fun ln => containsStr (toLowerStr ln) "classdef".toList)
      = 0 :=
    List.countP_eq_zero.mpr (fun l hl => by
      have h0 := hcount0 l (by rw [hr]; exact List.mem_cons_of_mem _ hl)
      intro hcontra
      rw [h0] at hcontra
      simp at hcontra)
  have hcd5 : (splitNl colorDefs).countP
      (fun ln => containsStr (toLowerStr ln) "classdef".toList) = 5 := by
    decide
  rw [hpr, hcd5, hph0]
  simp

/-- Witness for the amended C5: a diagram using `:::core` with no classDef
gets the five default classDef lines injected after its header. -/
theorem sanitize_injects_five_classdefs_witness :
    ∃ y first rest,
      validate_and_clean_mermaid "flowchart TD\nA[x]:::core".toList = some y ∧
      splitNl y = first :: (splitNl colorDefs ++ rest) ∧
      splitNl colorDefs =
        ["classDef foundation fill:#4d94ff,color:#000,stroke:#333,stroke-width:2px".toList,
         "classDef core fill:#33cc33,color:#000,stroke:#333,stroke-width:2px".toList,
         "classDef practice fill:#ff9900,color:#000,stroke:#333,stroke-width:2px".toList,
         "classDef project fill:#9933ff,color:#fff,stroke:#333,stroke-width:2px".toList,
         "classDef review fill:#ff3333,color:#fff,stroke:#333,stroke-width:2px".toList] ∧
      (splitNl y).countP
        (fun ln => containsStr (toLowerStr ln) "classdef".toList) = 5 :=
  sanitize_injects_five_classdefs "flowchart TD\nA[x]:::core".toList
    (by decide) (by decide) (by decide)

/-- Counterexample to C5 as stated: the word "classDef" in prose BEFORE the
keyword truncation suppresses the injection (the code tests the stale
pre-truncation text), so this output body uses `:::` and declares no
classDef, yet contains zero classDef lines instead of five. -/
theorem sanitize_injects_five_classdefs_cex :
    validate_and_clean_mermaid "see classDef docs\nflowchart TD\nA:::foo".toList
      = some "flowchart TD\nA:::foo".toList ∧
    containsStr "flowchart TD\nA:::foo".toList ":::".toList = true ∧
    (splitNl "flowchart TD\nA:::foo".toList).countP
      (fun ln => containsStr (toLowerStr ln) "classdef".toList) = 0 := by
  refine ⟨by decide, by decide, by decide⟩

/-! The node parser (claim C6). -/

/-- Claim C6: the parser yields one item per node-definition token in order of
first appearance, with the stated id/title/description and without
deduplication; in particular the spec's concrete example parses to exactly the
two stated items, and duplicate identifiers produce duplicate items. -/
theorem parse_items_from_nodes :
    parse_mermaid_diagram
        "flowchart TD\nA[Learn Basics]\nB[Build Project]\nA-->B".toList =
      [{ id := "A".toList, title := "Learn Basics".toList,
         description := "Complete: Learn Basics".toList },
       { id := "B".toList, title := "Build Project".toList,
         description := "Complete: Build Project".toList }] ∧
    parse_mermaid_diagram "flowchart TD\nA[First]\nA[Second]".toList =
      [{ id := "A".toList, title := "First".toList,
         description := "Complete: First".toList },
       { id := "A".toList, title := "Second".toList,
         description := "Complete: Second".toList }] ∧
    ∀ code : Str, ∀ it ∈ parse_mermaid_diagram code,
      it.description = "Complete: ".toList ++ it.title := by
  refine ⟨by decide, by decide, ?_⟩
  intro code it hit
  simp only [parse_mermaid_diagram, List.mem_map] at hit
  obtain ⟨p, _, rfl⟩ := hit
  rfl

/-- Witness for C6's membership-hypothesis part at a concrete parse. -/
theorem parse_items_from_nodes_witness :
    ({ id := "A".toList, title := "Hi".toList,
       description := "Complete: Hi".toList } : RoadmapItem).description =
      "Complete: ".toList ++ "Hi".toList :=
  parse_items_from_nodes.2.2 "A[Hi]".toList
    { id := "A".toList, title := "Hi".toList,
      description := "Complete: Hi".toList } (by decide)

/-! Progress aggregation (claim C7). -/

/-- Claim C7: progress aggregation returns the item count, the completed
count, and `completed/total*100` guarded to `0` when there are no items; the
empty sequence yields `(0, 0, 0)` and 3 items with 1 completed yield
`(3, 1, 100/3)`. -/
theorem progress_aggregation :
    (∀ items : List DbRoadmapItem,
      (get_roadmap_progress items).total_items = items.length ∧
      (get_roadmap_progress items).completed_items =
        (items.filter (fun i => i.completed)).length ∧
      (get_roadmap_progress items).progress_percentage =
        (if items.length > 0 then
          ((items.filter (fun i => i.completed)).length : ℚ) /
            (items.length : ℚ) * 100
         else 0)) ∧
    get_roadmap_progress [] =
      { total_items := 0, completed_items := 0, progress_percentage := 0,
        items := [] } ∧
    get_roadmap_progress
        [{ id := "A".toList, title := "a".toList, completed := true },
         { id := "B".toList, title := "b".toList, completed := false },
         { id := "C".toList, title := "c".toList, completed := false }] =
      { total_items := 3, completed_items := 1, progress_percentage := 100 / 3,
        items :=
          [{ id := "A".toList, title := "a".toList, completed := true },
           { id := "B".toList, title := "b".toList, completed := false },
           { id := "C".toList, title := "c".toList, completed := false }] } := by
  refine ⟨fun items => ⟨rfl, rfl, rfl⟩, by decide, ?_⟩
  unfold get_roadmap_progress
  norm_num

/-! Search-directive detection and no-result handling (claim C8). -/

theorem dropWhile_space_eq_self {l : Str}
    (h : ∀ c ∈ l, pyIsSpace c = false) : l.dropWhile pyIsSpace = l := by
  cases l with
  | nil => rfl
  | cons c t => simp [List.dropWhile_cons, h c (by simp)]

/-- Stripping preserves a non-whitespace prefix of the string. -/
theorem pyStrip_keeps_head {s p : Str} (hp : hasPref s p = true)
    (hne : p ≠ []) (hsp : ∀ c ∈ p, pyIsSpace c = false) :
    hasPref (pyStrip s) p = true := by
  rcases hasPref_iff.mp hp with ⟨R, rfl⟩
  cases p with
  | nil => exact absurd rfl hne
  | cons q qt =>
    have hL : pyStripL ((q :: qt) ++ R) = (q :: qt) ++ R := by
      simp [pyStripL, List.dropWhile_cons, hsp q (by simp)]
    rw [pyStrip, hL]
    unfold pyStripR
    rw [List.reverse_append, List.dropWhile_append]
    split
    · have hrev : (q :: qt).reverse.dropWhile pyIsSpace = (q :: qt).reverse :=
        dropWhile_space_eq_self (fun c hc =>
          hsp c (List.mem_reverse.mp hc))
      rw [hrev, List.reverse_reverse]
      simp [hasPref]
    · rw [List.reverse_append, List.reverse_reverse]
      exact hasPref_append (by simp [hasPref])

/-- Claim C8 (amended): a message beginning (case-insensitively) with
`search:` or `/search` whose trimmed remainder is non-empty has that trimmed
remainder detected as the search query (and so the search collaborator is
invoked with it); and when the search returns zero results the enhanced
message contains the explicit no-results note. -/
theorem search_directive_detection :
    ∀ (msg : Str) (sf : Str → List SearchResult) (st : Option UserSettings),
      (hasPrefCI msg "search:".toList = true ∨
        hasPrefCI msg "/search".toList = true) →
      pyStrip (msg.drop 7) ≠ [] →
      detect_search_query msg = some (pyStrip (msg.drop 7)) ∧
      (sf (pyStrip (msg.drop 7)) = [] →
        containsStr (enhancedMessage msg sf st) noResultsNote = true) := by
  intro msg sf st hpre hq
  have hqe : ¬(pyStrip (msg.drop 7)).isEmpty = true := by
    simpa [List.isEmpty_iff] using hq
  have hdet : detect_search_query msg = some (pyStrip (msg.drop 7)) := by
    rcases hpre with hpre | hpre
    · have hlow : hasPref (pyStrip (toLowerStr msg)) "search:".toList = true :=
        pyStrip_keeps_head hpre (by decide) (by decide)
      unfold detect_search_query
      dsimp only
      rw [if_pos hlow, if_neg hqe]
    · have hlow : hasPref (pyStrip (toLowerStr msg)) "/search".toList = true :=
        pyStrip_keeps_head hpre (by decide) (by decide)
      have hnot : hasPref (pyStrip (toLowerStr msg)) "search:".toList = false := by
        rcases hasPref_iff.mp hlow with ⟨R, hR⟩
        rw [← hR]
        simp [hasPref, List.isPrefixOf]
      unfold detect_search_query
      dsimp only
      rw [hnot]
      simp only [Bool.false_eq_true, if_false]
      rw [if_pos hlow, if_neg hqe]
  refine ⟨hdet, fun hzero => ?_⟩
  unfold enhancedMessage
  rw [hdet]
  dsimp only
  rw [hzero]
  simp only [List.isEmpty_nil, if_true]
  exact containsStr_iff.mpr
    ⟨settingsContext st ++ msg, [], by simp⟩

/-- Witness for the amended C8: the spec's example message detects the query
"python testing frameworks", and with a search collaborator returning no
results the enhanced message contains the no-results note. -/
theorem search_directive_detection_witness :
    detect_search_query "search: python testing frameworks".toList =
      some "python testing frameworks".toList ∧
    containsStr
      (enhancedMessage "search: python testing frameworks".toList
        (fun _ => []) none) noResultsNote = true := by
  have h := search_directive_detection "search: python testing frameworks".toList
    (fun _ => []) none (Or.inl (by decide)) (by decide)
  exact ⟨by rw [h.1]; decide, h.2 rfl⟩

/-- Counterexample to C8 as stated: the bare message `search:` begins with the
recognized prefix, but no search is invoked (detection returns nothing and the
message is passed through unchanged even though the collaborator would have
returned a result). -/
theorem search_directive_detection_cex :
    hasPrefCI "search:".toList "search:".toList = true ∧
    detect_search_query "search:".toList = none ∧
    enhancedMessage "search:".toList
      (fun _ => [{ title := "t".toList, href := "u".toList, body := "b".toList }])
      none = "search:".toList := by
  refine ⟨by decide, by decide, by decide⟩

/-! Error handling and history frame of `chat` (claims C9, C10). -/

/-- Claim C9: when the generation collaborator fails, `chat` does not
propagate the failure: it returns (as an ordinary value) the visible error
string built from the failure message, as if it were the assistant's
reply — whatever the client state, session id and database outcomes of the
turn were. -/
theorem chat_error_string (st : ClientState) (session_id : Option Str)
    (msg : Str) (sf : Str → List SearchResult) (settings : Option UserSettings)
    (goc : Option Str) (dbh : Str → List ChatMsg) (e : Str) :
    (chat st session_id msg sf settings goc dbh (.error e)).response =
      "Error generating response: ".toList ++ e := rfl

/-- Claim C10 (amended): on a failed generation turn the in-memory history
after the turn equals the history AFTER the conversation-initialization step
(which, with persistence active, may have replaced the pre-turn in-memory
history with the persisted conversation) plus exactly one entry, the enhanced
user message with role "user"; the turn itself appends no assistant entry,
writes to the database exactly that one user message (when the database is
active with a conversation id) and nothing else, and leaves the flag and
conversation id as the initialization step set them — in particular the
returned error string is neither appended to the history nor saved. -/
theorem chat_failure_frame (st : ClientState) (session_id : Option Str)
    (msg : Str) (sf : Str → List SearchResult) (settings : Option UserSettings)
    (goc : Option Str) (dbh : Str → List ChatMsg) (e : Str) :
    (chat st session_id msg sf settings goc dbh (.error e)).state.conversation_history =
      (chatInit st session_id goc dbh).conversation_history ++
        [ChatMsg.mk "user".toList (enhancedMessage msg sf settings)] ∧
    (chat st session_id msg sf settings goc dbh (.error e)).saved =
      (if (chatInit st session_id goc dbh).use_database &&
          optStrTruthy (chatInit st session_id goc dbh).current_conversation_id then
        [ChatMsg.mk "user".toList (enhancedMessage msg sf settings)]
      else []) ∧
    (chat st session_id msg sf settings goc dbh (.error e)).state.use_database =
      (chatInit st session_id goc dbh).use_database ∧
    (chat st session_id msg sf settings goc dbh (.error e)).state.current_conversation_id =
      (chatInit st session_id goc dbh).current_conversation_id :=
  ⟨rfl, rfl, rfl, rfl⟩

/-- Counterexample to C10 as stated: with persistence active, no conversation
id yet and an empty in-memory history, the initialization block of `chat`
reloads the persisted conversation (here a user and an assistant message)
before appending the new user entry, so the history after the failed turn is
NOT the pre-turn history plus one user entry — it contains reloaded entries,
including an assistant one. -/
theorem chat_failure_frame_cex :
    (chat { use_database := true, current_conversation_id := none,
            conversation_history := [] }
        (some "s".toList) "x".toList (fun _ => []) none (some "c1".toList)
        (fun _ => [ChatMsg.mk "user".toList "hi".toList,
                   ChatMsg.mk "assistant".toList "yo".toList])
        (.error "boom".toList)).state.conversation_history =
      [ChatMsg.mk "user".toList "hi".toList,
       ChatMsg.mk "assistant".toList "yo".toList,
       ChatMsg.mk "user".toList "x".toList] ∧
    [ChatMsg.mk "user".toList "hi".toList,
     ChatMsg.mk "assistant".toList "yo".toList,
     ChatMsg.mk "user".toList "x".toList] ≠
      ([] : List ChatMsg) ++
        [ChatMsg.mk "user".toList
          (enhancedMessage "x".toList (fun _ => []) none)] := by
  refine ⟨by decide, by decide⟩

end StudyPlanner
